import Mathlib

/-!
# Verification of the MW210V lathe change-gear search

Shallow embedding of the core of `lathe_gears.py` and `tpi_box_gears.py`:
the geometric feasibility predicates, the unit conversion, the candidate
enumerator and its permutation budget, the ranking sort and deduplication,
the nearest-match search over the sorted feasible list, the global-extremes
report, the TPI-box nested-range search, and the `-c` single-set input
conversion.  Numeric values are embedded as rationals (`ℚ`) where the Python
source uses floats on exact small inputs, and as naturals/integers where the
source uses Python ints.  Module-level configuration globals of the source
(`min_out_dim`, `max_centers`, `spindle_diameter`, `spindle_teeth`,
`leadscrew_diameter`, `gear_clearance`) become explicit leading parameters.
-/

namespace LatheGears

/-- Embeds `check_reach_fit` (lathe_gears.py:186): fails if `sum(item)/2 < min_out_dim`. -/
def check_reach_fit (min_out_dim : ℚ) (item : List ℚ) : Bool :=
  if item.sum / 2 < min_out_dim then false else true

/-- Embeds `check_centers_fit` (lathe_gears.py:193): fails if `sum(item)/2 > max_centers`. -/
def check_centers_fit (max_centers : ℚ) (item : List ℚ) : Bool :=
  if item.sum / 2 > max_centers then false else true

/-- Embeds `check_belt_cleared` (lathe_gears.py:199): fails if `a < 33`. -/
def check_belt_cleared (a : ℚ) : Bool :=
  if a < 33 then false else true

/-- Embeds `check_spindle_cleared` (lathe_gears.py:205):
fails if `(b + spindle_diameter) >= (spindle_teeth + a)`. -/
def check_spindle_cleared (spindle_diameter spindle_teeth : ℚ) (a b : ℚ) : Bool :=
  if (b + spindle_diameter) ≥ (spindle_teeth + a) then false else true

/-- Embeds `check_lead_cleared` (lathe_gears.py:212):
fails if `(a + leadscrew_diameter) >= (b + c)`. -/
def check_lead_cleared (leadscrew_diameter : ℚ) (a b c : ℚ) : Bool :=
  if (a + leadscrew_diameter) ≥ (b + c) then false else true

/-- Embeds `check_gear_cleared` (lathe_gears.py:218):
fails if `(a + c + gear_clearance) >= (b + d)`. -/
def check_gear_cleared (gear_clearance : ℚ) (a b c d : ℚ) : Bool :=
  if (a + c + gear_clearance) ≥ (b + d) then false else true

/-- Embeds `no_conversion` (lathe_gears.py:307): identity on the pitch value. -/
def no_conversion (value : ℚ) : ℚ := value

/-- Embeds `conversion` (lathe_gears.py:311): `25.4 / value`. -/
def conversion (value : ℚ) : ℚ := 25.4 / value

/-- Embeds `possible_permutations` (lathe_gears.py:61):
`total += math.prod(list(range(n, n - p, -1))) * math.factorial(p)` for
`p` in `[3, 4, 4, 5]`.  `range(n, n - p, -1)` lists `n - i` for `i < p`. -/
def possible_permutations (gears_available : ℕ) : ℤ :=
  (([3, 4, 4, 5] : List ℕ).map
    (fun p => ((List.range p).map (fun i => (gears_available : ℤ) - i)).prod
      * (p.factorial : ℤ))).sum

/-- Embeds `all_possible_sets` (lathe_gears.py:181): all unordered subsets of
the inventory of sizes 3, 4 and 5 (itertools.combinations), each keeping the
inventory order. -/
def all_possible_sets (gears : List ℕ) : List (List ℕ) :=
  (([3, 4, 5] : List ℕ).map (fun r => List.sublistsLen r gears)).flatten

/-- The number of permutations the main enumeration loop
(lathe_gears.py:469-516) actually explores: for every subset `s` produced by
`all_possible_sets`, every permutation of `s`; a permutation of a 4-subset is
counted twice because it is evaluated against both the dogleg (II) and flash
(III) role mappings. -/
def explored_permutations (gears : List ℕ) : ℕ :=
  ((all_possible_sets gears).map
    (fun s => if s.length = 4 then 2 * s.permutations.length
              else s.permutations.length)).sum

theorem explored_permutations_closed_form (gears : List ℕ) :
    explored_permutations gears =
      (([3, 4, 4, 5] : List ℕ).map (Nat.descFactorial gears.length)).sum := by
  have hsum : ∀ (k : ℕ) (c : ℕ), (∀ s ∈ List.sublistsLen k gears, s.length = k) →
      ((List.sublistsLen k gears).map
        (fun s => if s.length = 4 then 2 * s.permutations.length
                  else s.permutations.length)).sum =
      (gears.length.choose k) * (if k = 4 then 2 * k.factorial else k.factorial) := by
    intro k c hlen
    have hmap : (List.sublistsLen k gears).map
        (fun s => if s.length = 4 then 2 * s.permutations.length
                  else s.permutations.length) =
        (List.sublistsLen k gears).map
          (fun _ => if k = 4 then 2 * k.factorial else k.factorial) := by
      apply List.map_congr_left
      intro s hs
      have h1 : s.length = k := hlen s hs
      rw [List.length_permutations, h1]
    rw [hmap, List.map_const', List.sum_replicate, smul_eq_mul,
      List.length_sublistsLen]
  have h3 := hsum 3 0 (fun s hs => (List.mem_sublistsLen.mp hs).2)
  have h4 := hsum 4 0 (fun s hs => (List.mem_sublistsLen.mp hs).2)
  have h5 := hsum 5 0 (fun s hs => (List.mem_sublistsLen.mp hs).2)
  simp only [explored_permutations, all_possible_sets, List.map_cons,
    List.map_nil, List.flatten, List.map_append, List.sum_append,
    List.append_nil, List.sum_cons, List.sum_nil] at *
  rw [h3, h4, h5]
  have d3 : gears.length.choose 3 * Nat.factorial 3 =
      gears.length.descFactorial 3 := by
    rw [Nat.descFactorial_eq_factorial_mul_choose]; ring
  have d4 : gears.length.choose 4 * Nat.factorial 4 =
      gears.length.descFactorial 4 := by
    rw [Nat.descFactorial_eq_factorial_mul_choose]; ring
  have d5 : gears.length.choose 5 * Nat.factorial 5 =
      gears.length.descFactorial 5 := by
    rw [Nat.descFactorial_eq_factorial_mul_choose]; ring
  norm_num [Nat.factorial] at d3 d4 d5 ⊢
  omega

/-- C2.  The enumerator's explored permutation count does equal the closed
form `Σ_{k∈{3,4,4,5}} n!/(n−k)!` (falling factorials; `420` for an inventory
of size `n = 5`), but the budget returned by `possible_permutations` does
NOT: the code multiplies the falling factorial `math.prod(range(n, n-p, -1))`
by an extra `math.factorial(p)`, returning `20520` for `n = 5`. -/
theorem C2_enumerator_budget_mismatch :
    (∀ gears : List ℕ, explored_permutations gears =
      (([3, 4, 4, 5] : List ℕ).map (Nat.descFactorial gears.length)).sum) ∧
    (([3, 4, 4, 5] : List ℕ).map (Nat.descFactorial 5)).sum = 420 ∧
    explored_permutations [20, 24, 33, 35, 40] = 420 ∧
    possible_permutations 5 = 20520 := by
  refine ⟨explored_permutations_closed_form, by decide, ?_, by decide⟩
  rw [explored_permutations_closed_form]
  decide

/-- C3 counterexample.  The claim says `check_reach_fit` reports infeasible
when `sum(items)/2` equals `min_out_dim`; on the code (failure test is the
strict `sum(item)/2 < min_out_dim`) equality is feasible: with
`min_out_dim = 90` and items summing to `180`, the predicate returns `True`. -/
theorem C3_reach_fit_equality_feasible :
    (([20, 20, 40, 40, 60] : List ℚ).sum / 2 = 90) ∧
    check_reach_fit 90 [20, 20, 40, 40, 60] = true := by
  constructor
  · norm_num
  · norm_num [check_reach_fit]

/-- C3 amended.  At exact thresholds: `check_reach_fit` reports FEASIBLE when
`sum(items)/2` equals `min_out_dim` (its failure test is the strict `<`);
`check_centers_fit` reports feasible when `sum(items)/2` equals
`max_centers`; and `check_spindle_cleared`, `check_lead_cleared`,
`check_gear_cleared` report infeasible when their left-hand side equals their
right-hand side, because their failure tests use `>=`. -/
theorem C3_threshold_semantics
    (min_out_dim max_centers spindle_diameter spindle_teeth : ℚ)
    (leadscrew_diameter gear_clearance : ℚ) (a b c d : ℚ) (item : List ℚ) :
    (item.sum / 2 = min_out_dim → check_reach_fit min_out_dim item = true) ∧
    (item.sum / 2 = max_centers → check_centers_fit max_centers item = true) ∧
    (b + spindle_diameter = spindle_teeth + a →
      check_spindle_cleared spindle_diameter spindle_teeth a b = false) ∧
    (a + leadscrew_diameter = b + c →
      check_lead_cleared leadscrew_diameter a b c = false) ∧
    (a + c + gear_clearance = b + d →
      check_gear_cleared gear_clearance a b c d = false) := by
  refine ⟨fun h => ?_, fun h => ?_, fun h => ?_, fun h => ?_, fun h => ?_⟩ <;>
    simp [check_reach_fit, check_centers_fit, check_spindle_cleared,
      check_lead_cleared, check_gear_cleared, h]

/-- C3 witness: the amended threshold semantics at concrete boundary inputs
(`min_out_dim = 90` with items summing to `180`; `max_centers = 90`
likewise; `b + spindle_diameter = 100 = spindle_teeth + a`;
`a + leadscrew_diameter = 70 = b + c`; `a + c + gear_clearance = 110 = b + d`). -/
theorem C3_threshold_semantics_witness :
    check_reach_fit 90 [20, 20, 40, 40, 60] = true ∧
    check_centers_fit 90 [20, 20, 40, 40, 60] = true ∧
    check_spindle_cleared 56 60 40 44 = false ∧
    check_lead_cleared 23 47 27 43 = false ∧
    check_gear_cleared 4 40 50 66 60 = false := by
  have h1 := C3_threshold_semantics 90 90 56 60 23 4 40 44 43 60 [20, 20, 40, 40, 60]
  have h2 := C3_threshold_semantics 90 90 56 60 23 4 47 27 43 60 [20, 20, 40, 40, 60]
  have h3 := C3_threshold_semantics 90 90 56 60 23 4 40 50 66 60 [20, 20, 40, 40, 60]
  exact ⟨h1.1 (by norm_num), h1.2.1 (by norm_num), h1.2.2.1 (by norm_num),
    h2.2.2.2.1 (by norm_num), h3.2.2.2.2 (by norm_num)⟩

/-- C9.  Unit conversion is involutive: for every nonzero pitch value `x`,
`conversion (conversion x) = 25.4/(25.4/x) = x`, and the matched-unit
conversion `no_conversion` is the identity everywhere. -/
theorem C9_conversion_involutive :
    (∀ x : ℚ, x ≠ 0 → conversion (conversion x) = x) ∧
    (∀ x : ℚ, no_conversion x = x) := by
  constructor
  · intro x hx
    have h254 : (25.4 : ℚ) ≠ 0 := by norm_num
    simp only [conversion]
    field_simp
  · intro x
    rfl

/-- One entry of `fitting_sets` (lathe_gears.py:487,496,505,516): the Python
list `[pitch, slot1, slot2, slot3, slot4, slot5, slot6, std]`, where slots
holding no real gear carry the residual numeric placeholder `1` and `std` is
the standard deviation of the real tooth counts. -/
structure FitSet where
  pitch : ℚ
  s1 : ℕ
  s2 : ℕ
  s3 : ℕ
  s4 : ℕ
  s5 : ℕ
  s6 : ℕ
  std : ℚ
deriving DecidableEq

/-- Lexicographic `<=` on equal-length lists of rationals, the order Python
uses on sort-key tuples. -/
def listLexLe : List ℚ → List ℚ → Bool
  | [], _ => true
  | _ :: _, [] => false
  | a :: l, b :: m => if a < b then true else if b < a then false else listLexLe l m

/-- The sort key of `fitting_sets.sort` (lathe_gears.py:521):
`lambda x: (x[0], -x[7], x[1], x[2], x[3], x[4], x[5], x[6])`. -/
def sortKey (x : FitSet) : List ℚ :=
  [x.pitch, -x.std, x.s1, x.s2, x.s3, x.s4, x.s5, x.s6]

/-- `a` may precede `b` in the sorted output: its key tuple is `<=` the
other's. -/
def fitLe (a b : FitSet) : Bool := listLexLe (sortKey a) (sortKey b)

/-- Embeds `fitting_sets.sort(key=...)` (lathe_gears.py:521): a stable sort
by the lexicographic key order. -/
def sortFitting (l : List FitSet) : List FitSet := l.mergeSort fitLe

theorem listLexLe_trans : ∀ l m n : List ℚ,
    listLexLe l m = true → listLexLe m n = true → listLexLe l n = true := by
  intro l
  induction l with
  | nil => intro m n _ _; rfl
  | cons a l ih =>
    intro m n hlm hmn
    match m, n with
    | [], _ => simp [listLexLe] at hlm
    | _ :: _, [] => simp [listLexLe] at hmn
    | b :: m, c :: n =>
      simp only [listLexLe] at hlm hmn ⊢
      split_ifs at hlm hmn ⊢ with h1 h2 h3 h4 h5 h6 <;>
        first
        | rfl
        | (exfalso; linarith)
        | exact ih m n hlm hmn

theorem listLexLe_total : ∀ l m : List ℚ,
    (listLexLe l m || listLexLe m l) = true := by
  intro l
  induction l with
  | nil => intro m; simp [listLexLe]
  | cons a l ih =>
    intro m
    match m with
    | [] => simp [listLexLe]
    | b :: m =>
      by_cases h1 : a < b
      · simp [listLexLe, h1]
      · by_cases h2 : b < a
        · simp [listLexLe, h1, h2]
        · simpa [listLexLe, h1, h2] using ih m

theorem listLexLe_cons_iff (a b : ℚ) (l m : List ℚ) :
    listLexLe (a :: l) (b :: m) = true ↔
      (a < b ∨ (a = b ∧ listLexLe l m = true)) := by
  simp only [listLexLe]
  split_ifs with h1 h2
  · simp [h1]
  · simp [h1, h2, lt_asymm h2, ne_of_gt h2]
  · have hab : a = b := le_antisymm (not_lt.mp h2) (not_lt.mp h1)
    simp [h1, hab]

/-- C4.  The ranking sort orders the feasible list primarily by ascending
pitch and, among entries of equal pitch, by descending dispersion: adjacent
entries of the sorted output have strictly increasing pitch, or equal pitch
and non-increasing `std`.  (The code comment above the sort claims the
opposite, ascending-std direction; the code's key `-x[7]` is descending.) -/
theorem C4_sort_pitch_then_descending_std (l : List FitSet) :
    List.Chain' (fun a b => a.pitch < b.pitch ∨ (a.pitch = b.pitch ∧ b.std ≤ a.std))
      (sortFitting l) := by
  have hp : (sortFitting l).Pairwise (fun a b => fitLe a b) :=
    @List.sorted_mergeSort FitSet fitLe
      (fun a b c hab hbc => listLexLe_trans _ _ _ hab hbc)
      (fun a b => listLexLe_total _ _) l
  refine List.Chain'.imp ?_ (List.Pairwise.chain' hp)
  intro a b hab
  have hab' : listLexLe (sortKey a) (sortKey b) = true := hab
  simp only [sortKey] at hab'
  rw [listLexLe_cons_iff] at hab'
  rcases hab' with h | ⟨hpe, h⟩
  · exact Or.inl h
  · rw [listLexLe_cons_iff] at h
    rcases h with h | ⟨hse, _⟩
    · exact Or.inr ⟨hpe, le_of_lt (by linarith)⟩
    · exact Or.inr ⟨hpe, le_of_eq (by linarith)⟩

/-- Embeds `list(dict.fromkeys(map(tuple, fitting_sets)))`
(lathe_gears.py:525): keep the first occurrence of each distinct full tuple,
preserving order. -/
def dict_fromkeys : List FitSet → List FitSet
  | [] => []
  | x :: xs => x :: dict_fromkeys (xs.filter (fun y => decide (y ≠ x)))
termination_by l => l.length
decreasing_by
  simp only [List.length_cons]
  exact Nat.lt_succ_of_le (List.length_filter_le _ _)

theorem mem_dict_fromkeys : ∀ (l : List FitSet) (a : FitSet),
    a ∈ dict_fromkeys l ↔ a ∈ l := by
  intro l
  induction l using dict_fromkeys.induct with
  | case1 => intro a; rw [dict_fromkeys]
  | case2 x xs ih =>
    intro a
    rw [dict_fromkeys]
    simp only [List.mem_cons, ih, List.mem_filter]
    constructor
    · rintro (rfl | ⟨ha, _⟩)
      · exact Or.inl rfl
      · exact Or.inr ha
    · rintro (rfl | ha)
      · exact Or.inl rfl
      · by_cases hax : a = x
        · exact Or.inl hax
        · exact Or.inr ⟨ha, by simpa using hax⟩

theorem nodup_dict_fromkeys : ∀ l : List FitSet, (dict_fromkeys l).Nodup := by
  intro l
  induction l using dict_fromkeys.induct with
  | case1 => rw [dict_fromkeys]; exact List.nodup_nil
  | case2 x xs ih =>
    rw [dict_fromkeys]
    refine List.Nodup.cons ?_ ih
    rw [mem_dict_fromkeys]
    simp

/-- The spec's duplicate key: identical pitch and identical full ordered slot
tuple (placeholders included). -/
def sameKey (y x : FitSet) : Prop :=
  y.pitch = x.pitch ∧ y.s1 = x.s1 ∧ y.s2 = x.s2 ∧ y.s3 = x.s3 ∧
    y.s4 = x.s4 ∧ y.s5 = x.s5 ∧ y.s6 = x.s6

instance : DecidableRel sameKey := fun _ _ => by
  unfold sameKey
  infer_instance

/-- C5.  After deduplication, for any feasible-result list in which the
dispersion of an entry is determined by its (pitch, slot tuple) key — true of
every list the enumeration loop produces, since `std` is computed from the
real slots — all entries sharing an identical (pitch, full ordered slot
tuple) key collapse to exactly one surviving entry, the first occurrence in
sort order; in particular two candidates differing only in the ordering of
interchangeable placeholder positions collapse to one entry. -/
theorem C5_dedup_keeps_first_occurrence (l : List FitSet) (x : FitSet)
    (hinv : ∀ y ∈ l, ∀ z ∈ l, sameKey y z → y.std = z.std) (hx : x ∈ l) :
    (dict_fromkeys l).filter (fun y => decide (sameKey y x)) = [x] := by
  have hkey : ∀ y ∈ l, sameKey y x → y = x := by
    intro y hy hk
    obtain ⟨h0, h1, h2, h3, h4, h5, h6⟩ := hk
    have h7 : y.std = x.std := hinv y hy x hx ⟨h0, h1, h2, h3, h4, h5, h6⟩
    cases y; cases x
    simp_all
  have hcongr : (dict_fromkeys l).filter (fun y => decide (sameKey y x)) =
      (dict_fromkeys l).filter (fun y => decide (y = x)) := by
    apply List.filter_congr
    intro y hy
    rw [mem_dict_fromkeys] at hy
    simp only [decide_eq_decide]
    constructor
    · exact hkey y hy
    · rintro rfl
      exact ⟨rfl, rfl, rfl, rfl, rfl, rfl, rfl⟩
  rw [hcongr, List.filter_eq,
    List.count_eq_one_of_mem (nodup_dict_fromkeys l) ((mem_dict_fromkeys l x).mpr hx)]
  rfl

/-- C5 witness: a concrete list with a duplicated entry (as arises when two
permutations differ only in the ordering of placeholder slots) collapses to a
single occurrence, kept in front of the distinct later entry. -/
theorem C5_dedup_witness :
    (dict_fromkeys
        [⟨2, 40, 1, 50, 1, 56, 1, 8⟩, ⟨2, 40, 1, 50, 1, 56, 1, 8⟩,
         ⟨3, 40, 1, 50, 1, 70, 1, 15⟩]).filter
      (fun y => decide (sameKey y ⟨2, 40, 1, 50, 1, 56, 1, 8⟩)) =
      [⟨2, 40, 1, 50, 1, 56, 1, 8⟩] :=
  C5_dedup_keeps_first_occurrence _ _ (by decide) (by decide)

/-- One record emitted by the nearest-match search: an exact match of a
target at a feasible-list index, or a bracketing pair of the entry just
before the first entry whose pitch exceeds the target (absent when that
entry is the list head) and that exceeding entry itself. -/
inductive MatchEv where
  | exactMatch (target : ℚ) (idx : ℕ)
  | bracket (target : ℚ) (smaller : Option ℕ) (larger : ℕ)
deriving DecidableEq

/-- Embeds the body of the nearest-match scan (lathe_gears.py:540-574,
layout format; the list format at lines 577-595 has the same control
skeleton).  `idxs` is the remaining run of loop indices, `target` the
current target pitch, `pitches` the not-yet-popped targets, `zero` the
`zero_error_exists` flag.  At index `i`: if the entry's pitch equals the
target and no exact match has been emitted for it, emit an exact-match
record and set the flag; if the pitch exceeds the target, emit a bracketing
pair unless the flag is set, reset the flag, and pop the next target,
breaking when no targets remain. -/
def layoutGo (sets : List ℚ) : List ℕ → ℚ → List ℚ → Bool → List MatchEv
  | [], _, _, _ => []
  | i :: rest, target, pitches, zero =>
    let p := sets.getD i 0
    let hit : Bool := decide (p = target) && !zero
    let evs1 : List MatchEv := if hit then [MatchEv.exactMatch target i] else []
    let zero1 : Bool := zero || hit
    if target < p then
      evs1 ++
        (if zero1 then [] else
          [MatchEv.bracket target (if 0 < i then some (i - 1) else none) i]) ++
        (match pitches with
         | t :: ts => layoutGo sets rest t ts false
         | [] => [])
    else
      evs1 ++ layoutGo sets rest target pitches zero1

/-- Embeds the nearest-match search driver (lathe_gears.py:528,540): pop the
first target (`none` models the `IndexError` of popping an empty target
list), then scan loop indices `range(total_fitting_sets - 1)` — note the
`- 1`: the LAST feasible entry is never visited by the scan. -/
def layout_search (sets : List ℚ) (pitches : List ℚ) : Option (List MatchEv) :=
  match pitches with
  | [] => none
  | t :: ts => some (layoutGo sets (List.range (sets.length - 1)) t ts false)

/-- Python list indexing: a negative index counts from the back; out of
range is an `IndexError`, modelled as `none`. -/
def pyGet {α : Type} (l : List α) (i : ℤ) : Option α :=
  if i < 0 then
    if 0 ≤ i + l.length then l[(i + l.length).toNat]? else none
  else l[i.toNat]?

/-- Embeds the global-extremes report (lathe_gears.py:598-601): for unit
`tpi` the smallest-feedrate record is `fitting_sets[total_fitting_sets-1]`
and the biggest-feedrate record is `fitting_sets[0]`; for any other unit the
assignment is reversed.  The pair is (smallest feedrate, biggest feedrate);
`none` models the `IndexError` raised on an empty feasible list. -/
def big_and_small (pitch_unit : String) (sets : List FitSet) :
    Option (FitSet × FitSet) :=
  if pitch_unit = "tpi" then
    match pyGet sets ((sets.length : ℤ) - 1), pyGet sets 0 with
    | some small, some big => some (small, big)
    | _, _ => none
  else
    match pyGet sets 0, pyGet sets ((sets.length : ℤ) - 1) with
    | some small, some big => some (small, big)
    | _, _ => none

/-- C1.  On the spec's worked example `[18, 18, 19, 20, 20, 22]`, target
`20` does yield the exact-match record at the first pitch-20 entry (index
3); but target `21` yields NO output at all, because the scan loop iterates
`range(total_fitting_sets - 1)` and therefore never visits the last entry
(pitch 22), which the claim requires to be available as the nearest-larger
bracket. -/
theorem C1_nearest_match_skips_last_entry :
    layout_search [18, 18, 19, 20, 20, 22] [20] =
      some [MatchEv.exactMatch 20 3] ∧
    layout_search [18, 18, 19, 20, 20, 22] [21] = some [] := by decide

/-- C6.  On an empty feasible set the code does NOT report "no feasible
configurations": the nearest-match scan silently emits no record, and the
global-extremes report evaluates `fitting_sets[total_fitting_sets-1]`, i.e.
`fitting_sets[-1]` on an empty list — an out-of-range access (`IndexError`),
modelled as `none`. -/
theorem C6_empty_feasible_set_out_of_range :
    big_and_small "tpi" [] = none ∧ big_and_small "mm" [] = none ∧
    layout_search [] [20, 21] = some [] := by decide

theorem pyGet_zero {α : Type} (l : List α) (h : l ≠ []) :
    pyGet l 0 = some (l.head h) := by
  match l with
  | a :: t => simp [pyGet]

theorem pyGet_last {α : Type} (l : List α) (h : l ≠ []) :
    pyGet l ((l.length : ℤ) - 1) = some (l.getLast h) := by
  have hlen : 0 < l.length := List.length_pos.mpr h
  rw [pyGet, if_neg (by omega)]
  have htn : ((l.length : ℤ) - 1).toNat = l.length - 1 := by omega
  rw [htn, List.getLast_eq_getElem, List.getElem?_eq_getElem (by omega)]

theorem pairwise_head_le (l : List FitSet) (h : l ≠ [])
    (hs : l.Pairwise (fun a b => a.pitch ≤ b.pitch)) :
    ∀ z ∈ l, (l.head h).pitch ≤ z.pitch := by
  match l with
  | a :: t =>
    intro z hz
    rcases List.mem_cons.mp hz with rfl | hz
    · exact le_refl _
    · exact (List.pairwise_cons.mp hs).1 z hz

theorem pairwise_le_getLast : ∀ (l : List FitSet) (h : l ≠ []),
    l.Pairwise (fun a b => a.pitch ≤ b.pitch) →
    ∀ z ∈ l, z.pitch ≤ (l.getLast h).pitch := by
  intro l
  induction l with
  | nil => intro h; exact absurd rfl h
  | cons a t ih =>
    intro h hs z hz
    match t with
    | [] =>
      rcases List.mem_cons.mp hz with rfl | hz
      · exact le_refl _
      · exact absurd hz (List.not_mem_nil z)
    | b :: t' =>
      rw [List.getLast_cons (by simp)]
      rcases List.mem_cons.mp hz with rfl | hz
      · exact (List.pairwise_cons.mp hs).1 _ (List.getLast_mem _)
      · exact ih (by simp) (List.pairwise_cons.mp hs).2 z hz

/-- C7.  For a non-empty pitch-ascending feasible list, the global-extremes
report branches on the unit: for `tpi` the smallest-feedrate record is the
last (numerically largest-pitch) entry and the biggest-feedrate record the
first (numerically smallest); for `mm` the assignment is reversed; the last
entry's pitch bounds every entry from above and the first from below. -/
theorem C7_global_extremes_unit_flip (sets : List FitSet) (hne : sets ≠ [])
    (hs : sets.Pairwise (fun a b => a.pitch ≤ b.pitch)) :
    big_and_small "tpi" sets = some (sets.getLast hne, sets.head hne) ∧
    big_and_small "mm" sets = some (sets.head hne, sets.getLast hne) ∧
    ∀ z ∈ sets, z.pitch ≤ (sets.getLast hne).pitch ∧
      (sets.head hne).pitch ≤ z.pitch := by
  refine ⟨?_, ?_, ?_⟩
  · rw [big_and_small, if_pos rfl, pyGet_last sets hne, pyGet_zero sets hne]
  · rw [big_and_small, if_neg (by decide), pyGet_last sets hne, pyGet_zero sets hne]
  · intro z hz
    exact ⟨pairwise_le_getLast sets hne hs z hz, pairwise_head_le sets hne hs z hz⟩

/-- C7 witness: a concrete two-entry ascending list; under `tpi` the
smallest feedrate is the pitch-8 (last) entry, under `mm` the pitch-2
(first) entry. -/
theorem C7_global_extremes_witness :
    big_and_small "tpi" [⟨2, 40, 1, 50, 1, 56, 1, 8⟩, ⟨8, 33, 1, 40, 1, 70, 1, 19⟩] =
      some (⟨8, 33, 1, 40, 1, 70, 1, 19⟩, ⟨2, 40, 1, 50, 1, 56, 1, 8⟩) ∧
    big_and_small "mm" [⟨2, 40, 1, 50, 1, 56, 1, 8⟩, ⟨8, 33, 1, 40, 1, 70, 1, 19⟩] =
      some (⟨2, 40, 1, 50, 1, 56, 1, 8⟩, ⟨8, 33, 1, 40, 1, 70, 1, 19⟩) := by
  have h := C7_global_extremes_unit_flip
    [⟨2, 40, 1, 50, 1, 56, 1, 8⟩, ⟨8, 33, 1, 40, 1, 70, 1, 19⟩]
    (by simp) (by simp [List.pairwise_cons]; norm_num)
  exact ⟨h.1, h.2.1⟩

/-- C9 witness: the double conversion at the concrete nonzero pitch `x = 8`
(`25.4/8 = 3.175`, `25.4/3.175 = 8`), and the identity at `x = 2`. -/
theorem C9_conversion_involutive_witness :
    conversion (conversion 8) = 8 ∧ no_conversion (2 : ℚ) = 2 :=
  ⟨C9_conversion_involutive.1 8 (by norm_num), C9_conversion_involutive.2 2⟩

/-- Models Python `int()` applied to a plain decimal string (an optional
sign followed by decimal digits); any other content — in particular the
placeholder marker `"H"` — raises `ValueError`, modelled as `none`. -/
def parseNatDigits (cs : List Char) : Option ℕ :=
  if cs = [] then none
  else if cs.all Char.isDigit then
    some (cs.foldl (fun acc c => 10 * acc + (c.toNat - 48)) 0)
  else none

/-- See `parseNatDigits`: Python `int()` on a string. -/
def pyIntOfString (s : String) : Option ℤ :=
  match s.data with
  | '-' :: rest => (parseNatDigits rest).map (fun n => -(n : ℤ))
  | '+' :: rest => (parseNatDigits rest).map (fun n => (n : ℤ))
  | cs => (parseNatDigits cs).map (fun n => (n : ℤ))

/-- Embeds the `-c` input-conversion loop (lathe_gears.py:421-425): for each
position string `i`, BOTH branches of `if i == 'H' or i == 1:` apply
`int(i)` (the guard compares a string with the integer `1`, which is always
false in Python 3, so only `i == 'H'` can select the first branch — whose
body is identical to the second).  The first conversion failure aborts the
whole run (`ValueError`), modelled by `none`. -/
def build_check_set : List String → Option (List ℤ)
  | [] => some []
  | i :: rest =>
    match (if i = "H" then pyIntOfString i else pyIntOfString i) with
    | none => none
    | some v =>
      match build_check_set rest with
      | none => none
      | some l => some (v :: l)

/-- `check_gear_set` (lathe_gears.py:426) is invoked on the converted set
only when every position string converted successfully. -/
def check_reached (check_gears : List String) : Bool :=
  (build_check_set check_gears).isSome

theorem pyIntOfString_H : pyIntOfString "H" = none := by decide

theorem build_check_set_none_of_H :
    ∀ gears : List String, "H" ∈ gears → build_check_set gears = none := by
  intro gears h
  induction gears with
  | nil => cases h
  | cons i rest ih =>
    rcases List.mem_cons.mp h with rfl | h
    · rw [build_check_set, if_pos rfl, pyIntOfString_H]
    · rw [build_check_set]
      rcases hv : (if i = "H" then pyIntOfString i else pyIntOfString i) with _ | v
      · rfl
      · rw [ih h]

/-- C10.  For every six-position check-set whose positions include the
placeholder marker `"H"`, the input-conversion loop applies `int()` to the
`"H"` string and raises `ValueError` (the conversion yields `none`) before
`check_gear_set` is ever invoked (`check_reached` is `false`), even though
`"H"` is the marker the `-c` interface requires for empty positions. -/
theorem C10_check_set_H_raises (check_gears : List String)
    (_hlen : check_gears.length = 6) (hH : "H" ∈ check_gears) :
    build_check_set check_gears = none ∧ check_reached check_gears = false := by
  have h := build_check_set_none_of_H check_gears hH
  exact ⟨h, by rw [check_reached, h]; rfl⟩

/-- C10 witness: the documentation's own example set `60,40,H,80,H,70`. -/
theorem C10_check_set_H_witness :
    build_check_set ["60", "40", "H", "80", "H", "70"] = none ∧
    check_reached ["60", "40", "H", "80", "H", "70"] = false :=
  C10_check_set_H_raises ["60", "40", "H", "80", "H", "70"] (by decide) (by decide)

end LatheGears

namespace TpiBox

/-- Physical limit constants of `tpi_box_gears.py` (lines 38-46). -/
def no_snag : ℕ := 4

/-- Spindle gear teeth, manufacturer imposed. -/
def S : ℕ := 56

/-- Smallest integer inch-fold, `5*25.4 = 127`. -/
def I : ℕ := 127

/-- Upper bound (exclusive) for the output gear `O`. -/
def max_O : ℕ := 71

/-- Upper bound (exclusive) for the primary gear `P`. -/
def max_P : ℕ := 171

/-- Upper bound (exclusive) for the `M` gear. -/
def max_M : ℕ := 100

/-- Lower bound for the `N` gear. -/
def min_N : ℕ := 20

/-- Python `range(a, b)` over naturals. -/
def pyRange (a b : ℕ) : List ℕ := List.range' a (b - a)

/-- One candidate appended by the TPI-box search
(tpi_box_gears.py:104): the Python list `[P, I, M, N, Q, O, Z_effective]`.
The source stores a 6-decimal rendering of `Z_effective`; the claim's
relations concern only the integer gear fields, so `Z` keeps the exact
rational here. -/
structure TpiCand where
  P : ℕ
  I : ℕ
  M : ℕ
  N : ℕ
  Q : ℕ
  O : ℕ
  Z : ℚ
deriving DecidableEq

/-- Embeds the nested range search (tpi_box_gears.py:86-104): for
`O in range(S+no_snag, max_O)`, `P in range(I+O+no_snag-S, max_P)`,
with `Q = S+P-O` skipped when `Q < I+no_snag`, and
`M in range(Q+min_N-I, max_M)`, with `N = M+I-Q` and
`Z_effective = S/P*I/M*N`, a candidate is appended when the acceptance test
holds of `Z_effective`.  The source's acceptance test is a floating-point
closeness test (`Z_effective % (25.4/1024)` close to `0`); it constrains
which candidates appear, never their field relations, so it is a parameter
here. -/
def tpi_all_sets (accept : ℚ → Bool) : List TpiCand :=
  (pyRange (S + no_snag) max_O).flatMap (fun O =>
    (pyRange (I + O + no_snag - S) max_P).flatMap (fun P =>
      let Q := S + P - O
      if Q < I + no_snag then []
      else
        (pyRange (Q + min_N - I) max_M).flatMap (fun M =>
          let N := M + I - Q
          let Z : ℚ := (S : ℚ) / P * I / M * N
          if accept Z then [⟨P, I, M, N, Q, O, Z⟩] else [])))

/-- C8.  Every candidate the TPI-box search appends, for ANY acceptance
test, satisfies the two algebraic relations `Q = S + P − O` and
`N = M + I − Q` (stated additively: `Q + O = S + P` and `N + Q = M + I`)
with the fixed constants `S = 56` and `I = 127`, and respects the bounds of
its nested ranges: `S + no_snag ≤ O < max_O`,
`I + O + no_snag − S ≤ P < max_P` (additively `I + O + no_snag ≤ S + P`),
`Q ≥ I + no_snag`, and `Q + min_N − I ≤ M < max_M` (additively
`Q + min_N ≤ M + I`). -/
theorem C8_tpi_box_invariants (accept : ℚ → Bool) (c : TpiCand)
    (hc : c ∈ tpi_all_sets accept) :
    c.I = I ∧
    c.Q + c.O = S + c.P ∧
    c.N + c.Q = c.M + I ∧
    S + no_snag ≤ c.O ∧ c.O < max_O ∧
    I + c.O + no_snag ≤ S + c.P ∧ c.P < max_P ∧
    I + no_snag ≤ c.Q ∧
    c.Q + min_N ≤ c.M + I ∧ c.M < max_M := by
  simp only [tpi_all_sets, List.mem_flatMap, pyRange, List.mem_range'_1] at hc
  obtain ⟨O, ⟨hO1, hO2⟩, P, ⟨hP1, hP2⟩, hc⟩ := hc
  by_cases hq : S + P - O < I + no_snag
  · rw [if_pos hq] at hc
    exact absurd hc (List.not_mem_nil c)
  · rw [if_neg hq] at hc
    simp only [List.mem_flatMap, List.mem_range'_1] at hc
    obtain ⟨M, ⟨hM1, hM2⟩, hc⟩ := hc
    by_cases ha : accept ((S : ℚ) / P * I / M * (M + I - (S + P - O) : ℕ)) = true
    · rw [if_pos ha] at hc
      rcases List.mem_singleton.mp hc with rfl
      simp only [S, I, no_snag, max_O, max_P, max_M, min_N] at *
      refine ⟨trivial, ?_, ?_, ?_, ?_, ?_, ?_, ?_, ?_, ?_⟩ <;> omega
    · rw [if_neg ha] at hc
      exact absurd hc (List.not_mem_nil c)

theorem mem_tpi_all_sets_of (accept : ℚ → Bool) (O P M : ℕ)
    (hO : O ∈ pyRange (S + no_snag) max_O)
    (hP : P ∈ pyRange (I + O + no_snag - S) max_P)
    (hq : ¬ (S + P - O < I + no_snag))
    (hM : M ∈ pyRange (S + P - O + min_N - I) max_M)
    (ha : accept ((S : ℚ) / P * I / M * (M + I - (S + P - O) : ℕ)) = true) :
    (⟨P, I, M, M + I - (S + P - O), S + P - O, O,
       (S : ℚ) / P * I / M * (M + I - (S + P - O) : ℕ)⟩ : TpiCand) ∈
      tpi_all_sets accept := by
  unfold tpi_all_sets
  refine List.mem_flatMap.mpr ⟨O, hO, ?_⟩
  refine List.mem_flatMap.mpr ⟨P, hP, ?_⟩
  rw [if_neg hq]
  refine List.mem_flatMap.mpr ⟨M, hM, ?_⟩
  rw [if_pos ha]
  exact List.mem_singleton.mpr rfl

/-- C8 witness: the concrete candidate `O = 60`, `P = 135`, `Q = 131`,
`M = 24`, `N = 20` with `Z = 56/135 * 127/24 * 20 = 3556/81`, under an
acceptance test that accepts everything, is produced by the search and
satisfies the claimed relations and bounds. -/
theorem C8_tpi_box_witness :
    (⟨135, 127, 24, 20, 131, 60, 3556 / 81⟩ : TpiCand) ∈
      tpi_all_sets (fun _ => true) ∧
    ((⟨135, 127, 24, 20, 131, 60, 3556 / 81⟩ : TpiCand).I = I ∧
     (⟨135, 127, 24, 20, 131, 60, (3556 : ℚ) / 81⟩ : TpiCand).Q +
       (⟨135, 127, 24, 20, 131, 60, (3556 : ℚ) / 81⟩ : TpiCand).O = S + 135) := by
  have hm0 := mem_tpi_all_sets_of (fun _ => true) 60 135 24
    (by decide) (by decide) (by decide) (by decide) rfl
  have hm : (⟨135, 127, 24, 20, 131, 60, 3556 / 81⟩ : TpiCand) ∈
      tpi_all_sets (fun _ => true) := by
    convert hm0 using 2
    all_goals norm_num [S, I]
  have hinv := C8_tpi_box_invariants (fun _ => true) _ hm
  exact ⟨hm, hinv.1, hinv.2.1⟩

end TpiBox
